import Mathlib

/-!
Verification of the debounced-button / channel / actuator firmware in
src/src/main.rs.

The firmware is modelled over discrete time (Nat ticks).  A digital input
pin is a `Signal`: a finite list of sampled levels followed by a constant
tail, so the level at every instant is defined and the signal is eventually
constant.  Suspension points of the async code become explicit time
arithmetic: waiting for an edge moves the clock to the next instant at which
the signal changes, sleeping for the debounce duration adds it to the clock,
and a periodic ticker moves the clock to the next multiple of its period.
Loops that may run forever (the debounce retry loop, the poller loop) take
explicit fuel and return `Option` / a finite event list: `none` (or a
truncated list) corresponds to the task staying suspended.
-/

/-- Logical level of a GPIO pin, as in embassy `gpio::Level`. -/
inductive Level where
  | Low
  | High
deriving DecidableEq, Repr

/-- Toggling an output pin flips its level (embassy `Output::toggle`). -/
def Level.toggle : Level → Level
  | Low => High
  | High => Low

/-- The event type sent over the channel (`enum LedState { Toggle }`). -/
inductive LedState where
  | Toggle
deriving DecidableEq, Repr

/-- An input-pin trace: explicit samples for the first instants, then a
constant tail level forever after.  Eventual constancy makes edge search
computable. -/
structure Signal where
  samples : List Level
  tail : Level
deriving DecidableEq, Repr

/-- Instantaneous level of the pin at time `t` (embassy `Input::get_level`). -/
def Signal.get_level (s : Signal) (t : Nat) : Level :=
  s.samples.getD t s.tail

/-- Linear search for the first instant `e` in `[e₀, e₀ + n)` at which the
signal differs from its value one tick earlier. -/
def edgeSearch (s : Signal) : Nat → Nat → Option Nat
  | _, 0 => none
  | e, n + 1 =>
    if s.get_level e = s.get_level (e - 1) then edgeSearch s (e + 1) n
    else some e

/-- Model of embassy `Input::wait_for_any_edge` called at time `t`: the first
instant strictly after `t` at which the signal level changes, or `none` when
the signal never changes again (the await suspends forever).  Edges can only
occur at instants `≤ s.samples.length`, so the search is bounded. -/
def nextEdge (s : Signal) (t : Nat) : Option Nat :=
  edgeSearch s (t + 1) (s.samples.length - t)

/-- The debounce loop of `Debouncer::debounce` run over signal `s` with
debounce duration `d`, starting at time `t`, with `fuel` bounding the number
of loop iterations.  Each iteration samples `l1`, waits for the next edge,
sleeps `d` ticks, samples `l2`, and returns `l2` together with the current
time iff `l1 ≠ l2`; otherwise the loop restarts at the current time.
`none` means the call is still suspended after `fuel` iterations (no edge
ever arrives, or every observed transition was discarded). -/
def debounce (s : Signal) (d : Nat) : Nat → Nat → Option (Nat × Level)
  | 0, _ => none
  | fuel + 1, t =>
    let l1 := s.get_level t
    match nextEdge s t with
    | none => none
    | some e =>
      let l2 := s.get_level (e + d)
      if l1 ≠ l2 then some (e + d, l2)
      else debounce s d fuel (e + d)

/-- Model of `Ticker::next` for a ticker of period `period` whose tick
boundaries are the multiples of `period`: the first tick boundary strictly
after time `t`. -/
def tickNext (period t : Nat) : Nat :=
  period * (t / period + 1)

/-- Event trace of the `poll_btn_with_state` loop over signal `s`:
each iteration debounces (button down), sends one `Toggle`, debounces again
(button up), and waits for the next tick of the `period`-ticker.  `dfuel`
bounds the iterations of each inner debounce loop and `iters` the number of
poller loop iterations; if a debounce call stays suspended the trace ends
with the events emitted so far. -/
def pollEvents (s : Signal) (d period dfuel : Nat) : Nat → Nat → List LedState
  | 0, _ => []
  | iters + 1, t =>
    match debounce s d dfuel t with
    | none => []
    | some (t1, _) =>
      LedState.Toggle ::
        match debounce s d dfuel t1 with
        | none => []
        | some (t2, _) => pollEvents s d period dfuel iters (tickNext period t2)

/-- Modelled from the spec: the embassy-sync `Channel` implementation is a
dependency, not part of this repository; only the declaration
`static CHANNEL: Channel<ThreadModeRawMutex, LedState, 64>` is in
src/src/main.rs.  Per the spec it is a fixed-capacity FIFO queue whose
capacity is fixed at construction; `buf` lists the queued events, oldest
first. -/
structure Chan where
  cap : Nat
  buf : List LedState
deriving DecidableEq, Repr

/-- The static channel of the program: capacity 64, initially empty. -/
def CHANNEL : Chan :=
  { cap := 64, buf := [] }

/-- Modelled from the spec: `send(event)` suspends the calling task if the
queue is full, resuming as soon as a slot frees; never drops events; never
fails.  `none` is the suspended outcome (the channel state is unchanged and
nothing is dropped); `some` is the updated channel with the event enqueued
at the back. -/
def send (c : Chan) (e : LedState) : Option Chan :=
  if c.buf.length < c.cap then some { c with buf := c.buf ++ [e] } else none

/-- Modelled from the spec: `receive()` suspends the calling task if the
queue is empty (`none`), otherwise returns the oldest event and the updated
channel. -/
def receive (c : Chan) : Option (LedState × Chan) :=
  match c.buf with
  | [] => none
  | e :: rest => some (e, { c with buf := rest })

/-- Sequence of sends; `none` as soon as one of them would suspend. -/
def sendAll : Chan → List LedState → Option Chan
  | c, [] => some c
  | c, e :: rest =>
    match send c e with
    | none => none
    | some c1 => sendAll c1 rest

/-- Sequence of `n` receives; `none` as soon as one of them would suspend.
Returns the received events in order of reception. -/
def recvN : Chan → Nat → Option (List LedState × Chan)
  | c, 0 => some ([], c)
  | c, n + 1 =>
    match receive c with
    | none => none
    | some (e, c1) =>
      match recvN c1 n with
      | none => none
      | some (es, c2) => some (e :: es, c2)

/-- Actuator state of the channel-consumer loop in `main`: the levels of the
LED collection (as a total function on indices; indices `≥ K` are never
touched) and the current index. -/
def ActuatorState : Type :=
  (Nat → Level) × Nat

/-- Pointwise toggle of the output at index `i` (embassy
`led_collection[index].toggle()`). -/
def toggle_output (leds : Nat → Level) (i : Nat) : Nat → Level :=
  fun j => if j = i then (leds i).toggle else leds j

/-- State of the actuator loop before its first `receive`: every LED is
constructed `Low`, then `led_collection[0].set_high()` runs and the index
is `0`. -/
def actuatorInit : ActuatorState :=
  (fun j => if j = 0 then Level.High else Level.Low, 0)

/-- One `LedState::Toggle` handled by the consumer loop of `main`, with the
collection size generalised from the hard-coded 3 to `K`: toggle the LED at
the current index, increment the index (wrapping to 0 when it reaches `K`),
then toggle the LED at the new index. -/
def actuatorStep (K : Nat) (st : ActuatorState) : ActuatorState :=
  let leds1 := toggle_output st.1 st.2
  let i1 := if st.2 + 1 = K then 0 else st.2 + 1
  (toggle_output leds1 i1, i1)

/-- Actuator state after the consumer loop has handled `M` Toggle events. -/
def actuatorRun (K : Nat) : Nat → ActuatorState
  | 0 => actuatorInit
  | M + 1 => actuatorStep K (actuatorRun K M)

/-- Result of a `spawner.spawn` call. -/
inductive SpawnResult where
  | ok
  | err
deriving DecidableEq, Repr

/-- The error-handling match on a spawn result in the button-polling `main`
variant: on `Err(_)` the fault-indicator pin is set high, on success the
handler does nothing and the pin keeps its previous level. -/
def handleSpawn (r : SpawnResult) (pin : Level) : Level :=
  match r with
  | SpawnResult.err => Level.High
  | SpawnResult.ok => pin

/-- The spawn section of the button-polling `main` variant: both
fault-indicator outputs are constructed at `Level::High`, then each spawn
result is handled in turn; execution continues past both matches whatever
the results were, yielding the final levels of `error_out_one` and
`error_out_two`. -/
def mainSpawnSection (r1 r2 : SpawnResult) : Level × Level :=
  let e1 := Level.High
  let e2 := Level.High
  (handleSpawn r1 e1, handleSpawn r2 e2)

/-- Decidable check that level `L` has been held continuously for the last
`d` ticks up to and including time `tr`. -/
def heldFor (s : Signal) (L : Level) (tr d : Nat) : Bool :=
  (List.range (d + 1)).all fun k => s.get_level (tr - k) == L

/-! Lemmas about the signal model and edge search. -/

theorem get_level_of_length_le (s : Signal) (e : Nat) (h : s.samples.length ≤ e) :
    s.get_level e = s.tail :=
  List.getD_eq_default _ _ h

theorem no_edge_beyond (s : Signal) (e : Nat) (h : s.samples.length < e) :
    s.get_level e = s.get_level (e - 1) := by
  rw [get_level_of_length_le s e (Nat.le_of_lt h),
    get_level_of_length_le s (e - 1) (by omega)]

theorem edgeSearch_some (s : Signal) :
    ∀ n e a, edgeSearch s e n = some a →
      e ≤ a ∧ a < e + n ∧ s.get_level a ≠ s.get_level (a - 1) ∧
      ∀ u, e ≤ u → u < a → s.get_level u = s.get_level (u - 1) := by
  intro n
  induction n with
  | zero => intro e a h; simp [edgeSearch] at h
  | succ n ih =>
    intro e a h
    unfold edgeSearch at h
    by_cases hc : s.get_level e = s.get_level (e - 1)
    · rw [if_pos hc] at h
      obtain ⟨h1, h2, h3, h4⟩ := ih (e + 1) a h
      refine ⟨by omega, by omega, h3, ?_⟩
      intro u hu1 hu2
      rcases Nat.eq_or_lt_of_le hu1 with he | he
      · rw [← he]; exact hc
      · exact h4 u he hu2
    · rw [if_neg hc] at h
      injection h with h
      subst h
      exact ⟨Nat.le_refl _, by omega, hc, fun u h1 h2 => by omega⟩

theorem edgeSearch_none (s : Signal) :
    ∀ n e, edgeSearch s e n = none →
      ∀ u, e ≤ u → u < e + n → s.get_level u = s.get_level (u - 1) := by
  intro n
  induction n with
  | zero => intro e _ u h1 h2; omega
  | succ n ih =>
    intro e h u h1 h2
    unfold edgeSearch at h
    by_cases hc : s.get_level e = s.get_level (e - 1)
    · rw [if_pos hc] at h
      rcases Nat.eq_or_lt_of_le h1 with he | he
      · rw [← he]; exact hc
      · exact ih (e + 1) h u he (by omega)
    · rw [if_neg hc] at h
      cases h

theorem edgeSearch_isNone (s : Signal) :
    ∀ n e, (∀ u, e ≤ u → u < e + n → s.get_level u = s.get_level (u - 1)) →
      edgeSearch s e n = none := by
  intro n
  induction n with
  | zero => intro e _; rfl
  | succ n ih =>
    intro e h
    unfold edgeSearch
    rw [if_pos (h e (Nat.le_refl e) (by omega))]
    exact ih (e + 1) fun u h1 h2 => h u (by omega) (by omega)

theorem nextEdge_some (s : Signal) (t e : Nat) (h : nextEdge s t = some e) :
    t < e ∧ s.get_level e ≠ s.get_level (e - 1) ∧
    ∀ u, t < u → u < e → s.get_level u = s.get_level (u - 1) := by
  unfold nextEdge at h
  obtain ⟨h1, _, h3, h4⟩ := edgeSearch_some s _ _ _ h
  exact ⟨h1, h3, fun u hu1 hu2 => h4 u hu1 hu2⟩

theorem nextEdge_none (s : Signal) (t : Nat) (h : nextEdge s t = none) :
    ∀ u, t < u → s.get_level u = s.get_level (u - 1) := by
  intro u hu
  unfold nextEdge at h
  by_cases hl : u < t + 1 + (s.samples.length - t)
  · exact edgeSearch_none s _ _ h u hu hl
  · exact no_edge_beyond s u (by omega)

theorem nextEdge_none_of (s : Signal) (t : Nat)
    (h : ∀ u, t < u → s.get_level u = s.get_level (u - 1)) :
    nextEdge s t = none := by
  unfold nextEdge
  exact edgeSearch_isNone s _ _ fun u hu _ => h u hu

theorem nextEdge_none_mono (s : Signal) (t v : Nat) (h : nextEdge s t = none)
    (hv : t ≤ v) : nextEdge s v = none :=
  nextEdge_none_of s v fun u hu => nextEdge_none s t h u (by omega)

theorem level_const_of_no_edge (s : Signal) (t e : Nat)
    (h : ∀ u, t < u → u < e → s.get_level u = s.get_level (u - 1)) :
    ∀ v, t ≤ v → v < e → s.get_level v = s.get_level t := by
  intro v
  induction v with
  | zero => intro h1 _; cases Nat.le_zero.mp h1; rfl
  | succ v ih =>
    intro h1 h2
    rcases Nat.lt_or_ge t (v + 1) with ht | ht
    · have hv : t ≤ v := Nat.lt_succ_iff.mp ht
      rw [h (v + 1) ht h2]
      simp only [Nat.add_sub_cancel]
      exact ih hv (Nat.lt_of_succ_lt h2)
    · rw [Nat.le_antisymm h1 ht]

theorem nextEdge_pre_level (s : Signal) (t e : Nat) (h : nextEdge s t = some e) :
    s.get_level (e - 1) = s.get_level t := by
  obtain ⟨h1, _, h3⟩ := nextEdge_some s t e h
  exact level_const_of_no_edge s t e h3 (e - 1) (by omega) (by omega)

theorem nextEdge_level_ne (s : Signal) (t e : Nat) (h : nextEdge s t = some e) :
    s.get_level e ≠ s.get_level t := by
  obtain ⟨_, h2, _⟩ := nextEdge_some s t e h
  rw [← nextEdge_pre_level s t e h]
  exact h2

/-! Lemmas about the debounce loop. -/

theorem debounce_unfold (s : Signal) (d fuel t : Nat) :
    debounce s d (fuel + 1) t =
      match nextEdge s t with
      | none => none
      | some e =>
        if s.get_level t ≠ s.get_level (e + d) then some (e + d, s.get_level (e + d))
        else debounce s d fuel (e + d) := by
  rfl

theorem debounce_one_iter (s : Signal) (d t e : Nat) (h : nextEdge s t = some e)
    (hstab : ∀ u, u ≤ d → s.get_level (e + u) = s.get_level e) :
    ∀ df, debounce s d (df + 1) t = some (e + d, s.get_level e) ∧
      s.get_level e ≠ s.get_level t := by
  intro df
  have hne := nextEdge_level_ne s t e h
  have hl2 : s.get_level (e + d) = s.get_level e := hstab d (Nat.le_refl d)
  have hcond : s.get_level t ≠ s.get_level (e + d) := by
    rw [hl2]; exact fun hx => hne hx.symm
  refine ⟨?_, hne⟩
  rw [debounce_unfold, h]
  dsimp only
  rw [if_pos hcond, hl2]

theorem debounce_sound (s : Signal) (d : Nat) :
    ∀ fuel t tr L, debounce s d fuel t = some (tr, L) →
      L = s.get_level tr ∧
      ∃ t1 e, nextEdge s t1 = some e ∧ t1 < e ∧ tr = e + d ∧ s.get_level t1 ≠ L := by
  intro fuel
  induction fuel with
  | zero => intro t tr L h; cases h
  | succ df ih =>
    intro t tr L h
    rw [debounce_unfold] at h
    cases he : nextEdge s t with
    | none => rw [he] at h; cases h
    | some e =>
      rw [he] at h
      dsimp only at h
      by_cases hc : s.get_level t ≠ s.get_level (e + d)
      · rw [if_pos hc] at h
        injection h with h1
        injection h1 with h2 h3
        subst h2; subst h3
        exact ⟨rfl, t, e, he, (nextEdge_some s t e he).1, rfl, hc⟩
      · rw [if_neg hc] at h
        exact ih (e + d) tr L h

theorem debounce_none_of_no_edge (s : Signal) (d t : Nat) (h : nextEdge s t = none) :
    ∀ fuel, debounce s d fuel t = none := by
  intro fuel
  cases fuel with
  | zero => rfl
  | succ df => rw [debounce_unfold, h]

/-! Lemmas about the poller loop and the ticker. -/

theorem pollEvents_unfold (s : Signal) (d period dfuel iters t : Nat) :
    pollEvents s d period dfuel (iters + 1) t =
      match debounce s d dfuel t with
      | none => []
      | some (t1, _) =>
        LedState.Toggle ::
          match debounce s d dfuel t1 with
          | none => []
          | some (t2, _) => pollEvents s d period dfuel iters (tickNext period t2) := by
  rfl

theorem lt_tickNext (period t : Nat) (h : 0 < period) : t < tickNext period t := by
  unfold tickNext
  rw [Nat.mul_add, Nat.mul_one]
  have h1 := Nat.div_add_mod t period
  have h2 : t % period < period := Nat.mod_lt t h
  omega

/-! Lemmas about the channel model. -/

theorem send_of_room (c : Chan) (e : LedState) (h : c.buf.length < c.cap) :
    send c e = some { cap := c.cap, buf := c.buf ++ [e] } := by
  unfold send
  rw [if_pos h]

theorem sendAll_of_room (cap : Nat) :
    ∀ es pre, pre.length + es.length ≤ cap →
      sendAll { cap := cap, buf := pre } es = some { cap := cap, buf := pre ++ es } := by
  intro es
  induction es with
  | nil => intro pre _; simp [sendAll]
  | cons e rest ih =>
    intro pre h
    have h1 : pre.length + (rest.length + 1) ≤ cap := by simpa using h
    unfold sendAll
    rw [send_of_room ⟨cap, pre⟩ e (by simp; omega)]
    dsimp only
    rw [ih (pre ++ [e]) (by simp; omega)]
    simp

theorem recvN_all (cap : Nat) :
    ∀ buf, recvN { cap := cap, buf := buf } buf.length = some (buf, { cap := cap, buf := [] }) := by
  intro buf
  induction buf with
  | nil => rfl
  | cons e rest ih =>
    rw [List.length_cons]
    unfold recvN receive
    dsimp only
    rw [ih]

/-! Lemmas about the actuator. -/

theorem toggle_output_eval (leds : Nat → Level) (i j : Nat) :
    toggle_output leds i j = if j = i then (leds i).toggle else leds j := by
  rfl

theorem double_toggle (leds : Nat → Level) (i i1 : Nat)
    (hleds : ∀ j, leds j = if j = i then Level.High else Level.Low) :
    ∀ j, toggle_output (toggle_output leds i) i1 j
      = if j = i1 then Level.High else Level.Low := by
  have hall : ∀ j, toggle_output leds i j = Level.Low := by
    intro j
    rw [toggle_output_eval]
    by_cases hj : j = i
    · rw [if_pos hj, hleds i, if_pos rfl]; rfl
    · rw [if_neg hj, hleds j, if_neg hj]
  intro j
  rw [toggle_output_eval]
  by_cases hj : j = i1
  · rw [if_pos hj, if_pos hj, hall i1]; rfl
  · rw [if_neg hj, if_neg hj, hall j]

/-! Claim theorems. -/

/-- Claim C1: every call of `Debouncer::debounce` follows exactly the
sample / edge-wait / settle / re-sample algorithm: each unfolding of the loop
samples `l1`, waits for an edge, sleeps the debounce duration, samples `l2`,
returns `l2` iff `l1 ≠ l2` and otherwise restarts; consequently a value is
returned only when the post-settle sample differs from the pre-edge sample of
the same iteration, so a glitch that reverts within the settle window never
produces a returned value. -/
theorem debounce_follows_algorithm :
    (∀ s d fuel t,
        debounce s d (fuel + 1) t =
          match nextEdge s t with
          | none => none
          | some e =>
            if s.get_level t ≠ s.get_level (e + d) then some (e + d, s.get_level (e + d))
            else debounce s d fuel (e + d)) ∧
    (∀ s d fuel t tr L, debounce s d fuel t = some (tr, L) →
        L = s.get_level tr ∧
        ∃ t1 e, nextEdge s t1 = some e ∧ tr = e + d ∧ s.get_level t1 ≠ L) := by
  constructor
  · intro s d fuel t
    exact debounce_unfold s d fuel t
  · intro s d fuel t tr L h
    obtain ⟨h1, t1, e, he, _, h2, h3⟩ := debounce_sound s d fuel t tr L h
    exact ⟨h1, t1, e, he, h2, h3⟩

/-- Witness for C1: a concrete run where the returned level is the
post-settle sample and differs from the pre-edge sample. -/
theorem debounce_follows_algorithm_witness :
    Level.High = Signal.get_level ⟨[Level.Low, Level.High, Level.High], Level.High⟩ 3 ∧
    ∃ t1 e, nextEdge ⟨[Level.Low, Level.High, Level.High], Level.High⟩ t1 = some e ∧
      3 = e + 2 ∧
      Signal.get_level ⟨[Level.Low, Level.High, Level.High], Level.High⟩ t1 ≠ Level.High :=
  debounce_follows_algorithm.2 ⟨[Level.Low, Level.High, Level.High], Level.High⟩ 2 1 0 3
    Level.High (by decide)

/-- Claim C2: each completed iteration of `poll_btn_with_state` sends exactly
one `Toggle`, after the first `debounce` and before the second, with no event
on release, and ends at the next tick boundary; and a single
press-then-release cycle (stable for the debounce duration at each level,
no further edges) yields exactly one `Toggle` event in the whole trace. -/
theorem poll_one_toggle_per_cycle :
    (∀ s d period dfuel iters t t1 L1 t2 L2,
        debounce s d dfuel t = some (t1, L1) →
        debounce s d dfuel t1 = some (t2, L2) →
        pollEvents s d period dfuel (iters + 1) t
          = LedState.Toggle :: pollEvents s d period dfuel iters (tickNext period t2)) ∧
    (∀ s d period df iters t p r,
        0 < period →
        nextEdge s t = some p →
        (∀ u, u ≤ d → s.get_level (p + u) = s.get_level p) →
        nextEdge s (p + d) = some r →
        (∀ u, u ≤ d → s.get_level (r + u) = s.get_level r) →
        nextEdge s (r + d) = none →
        pollEvents s d period (df + 1) (iters + 1) t = [LedState.Toggle]) := by
  constructor
  · intro s d period dfuel iters t t1 L1 t2 L2 h1 h2
    rw [pollEvents_unfold, h1]
    dsimp only
    rw [h2]
  · intro s d period df iters t p r hper h1 hs1 h2 hs2 h3
    have d1 := (debounce_one_iter s d t p h1 hs1 df).1
    have d2 := (debounce_one_iter s d (p + d) r h2 hs2 df).1
    rw [pollEvents_unfold, d1]
    dsimp only
    rw [d2]
    dsimp only
    have hnone : nextEdge s (tickNext period (r + d)) = none :=
      nextEdge_none_mono s (r + d) _ h3 (Nat.le_of_lt (lt_tickNext period (r + d) hper))
    cases iters with
    | zero => rfl
    | succ it =>
      rw [pollEvents_unfold, debounce_none_of_no_edge s d _ hnone (df + 1)]

/-- Witness for C2: a pin held Low, pressed High for twice the debounce
duration, then released; the poller emits exactly one Toggle. -/
theorem poll_one_toggle_per_cycle_witness :
    pollEvents ⟨[Level.Low, Level.High, Level.High, Level.High, Level.High], Level.Low⟩
      2 1 1 1 0 = [LedState.Toggle] :=
  poll_one_toggle_per_cycle.2
    ⟨[Level.Low, Level.High, Level.High, Level.High, Level.High], Level.Low⟩
    2 1 0 0 0 1 5 (by decide) (by decide) (by decide) (by decide) (by decide) (by decide)

/-- Claim C3: the event channel has capacity 64 fixed at construction and
starts empty; a send on a channel that is not full enqueues the event at the
back (nothing is ever lost), a send on a full channel suspends (`none`)
rather than dropping or erroring, and after one receive from a full channel a
send succeeds again. -/
theorem channel_capacity_and_lossless :
    (CHANNEL.cap = 64 ∧ CHANNEL.buf = []) ∧
    (∀ c e, c.buf.length < c.cap →
        send c e = some { cap := c.cap, buf := c.buf ++ [e] }) ∧
    (∀ c e, ¬ c.buf.length < c.cap → send c e = none) ∧
    (∀ c e c1, send c e = some c1 → c1.buf = c.buf ++ [e] ∧ c1.cap = c.cap) ∧
    (send { cap := 64, buf := List.replicate 64 LedState.Toggle } LedState.Toggle = none) ∧
    (receive { cap := 64, buf := List.replicate 64 LedState.Toggle }
        = some (LedState.Toggle, { cap := 64, buf := List.replicate 63 LedState.Toggle })) ∧
    ((send { cap := 64, buf := List.replicate 63 LedState.Toggle } LedState.Toggle).isSome
        = true) := by
  refine ⟨⟨rfl, rfl⟩, ?_, ?_, ?_, by decide, by decide, by decide⟩
  · intro c e h
    exact send_of_room c e h
  · intro c e h
    unfold send
    rw [if_neg h]
  · intro c e c1 h
    unfold send at h
    by_cases hc : c.buf.length < c.cap
    · rw [if_pos hc] at h
      injection h with h
      rw [← h]
      exact ⟨rfl, rfl⟩
    · rw [if_neg hc] at h
      cases h

/-- Witness for C3: the hypothesis-bearing conjuncts applied at concrete
channels. -/
theorem channel_capacity_and_lossless_witness :
    send CHANNEL LedState.Toggle = some { cap := 64, buf := [LedState.Toggle] } ∧
    send { cap := 64, buf := List.replicate 64 LedState.Toggle } LedState.Toggle = none ∧
    ([LedState.Toggle] = CHANNEL.buf ++ [LedState.Toggle] ∧ (64 : Nat) = 64) :=
  ⟨channel_capacity_and_lossless.2.1 CHANNEL LedState.Toggle (by decide),
   channel_capacity_and_lossless.2.2.1 { cap := 64, buf := List.replicate 64 LedState.Toggle }
     LedState.Toggle (by decide),
   channel_capacity_and_lossless.2.2.2.1 CHANNEL LedState.Toggle
     { cap := 64, buf := [LedState.Toggle] } (by decide)⟩

/-- Claim C4: sending N events (N at most the capacity) into an empty channel
and then receiving N times returns exactly the sent events in the same
order, leaving the channel empty (strict FIFO, no reordering or
coalescing). -/
theorem channel_fifo (c : Chan) (es : List LedState) (hempty : c.buf = [])
    (hlen : es.length ≤ c.cap) :
    ∃ c1, sendAll c es = some c1 ∧
      recvN c1 es.length = some (es, { cap := c.cap, buf := [] }) := by
  obtain ⟨cap, buf⟩ := c
  dsimp only at hempty hlen
  subst hempty
  refine ⟨{ cap := cap, buf := es }, ?_, ?_⟩
  · have := sendAll_of_room cap es [] (by simpa using hlen)
    simpa using this
  · exact recvN_all cap es

/-- Witness for C4: two Toggles through the static channel come back in
order. -/
theorem channel_fifo_witness :
    ∃ c1, sendAll CHANNEL [LedState.Toggle, LedState.Toggle] = some c1 ∧
      recvN c1 2 = some ([LedState.Toggle, LedState.Toggle], { cap := 64, buf := [] }) :=
  channel_fifo CHANNEL [LedState.Toggle, LedState.Toggle] rfl (by decide)

/-- Counterexample to claim C5 at K = 3, M = 2: the claim says exactly the
outputs in the set obtained from (M-1) mod K and M mod K, here 1 and 2, are
in the complement state relative to the initial configuration; but after two
Toggle events output 0 is in the complement state (Low, initially High) while
output 1 is not (Low, as initially). -/
theorem actuator_rotation_counterexample :
    (actuatorRun 3 2).1 0 ≠ actuatorInit.1 0 ∧ (actuatorRun 3 2).1 1 = actuatorInit.1 1 := by
  decide

/-- Claim C5 (amended): with K outputs, after M Toggle events starting from
index 0 with output 0 high, the index equals M mod K and exactly the output
at index M mod K is High, every other output Low; relative to the initial
configuration, the complement set is empty when M mod K equals 0 and
otherwise is the pair of indices 0 and M mod K, not the pair of indices
(M-1) mod K and M mod K. -/
theorem actuator_rotation_amended (K M : Nat) (hK : 0 < K) :
    (actuatorRun K M).2 = M % K ∧
    ∀ j, (actuatorRun K M).1 j = if j = M % K then Level.High else Level.Low := by
  induction M with
  | zero =>
    refine ⟨by simp [actuatorRun, actuatorInit], ?_⟩
    intro j
    simp [actuatorRun, actuatorInit, Nat.zero_mod]
  | succ M ih =>
    obtain ⟨ih1, ih2⟩ := ih
    have hlt : M % K < K := Nat.mod_lt M hK
    have hmod : (M + 1) % K = if M % K + 1 = K then 0 else M % K + 1 := by
      rw [← Nat.mod_add_mod]
      by_cases hc : M % K + 1 = K
      · rw [if_pos hc, hc, Nat.mod_self]
      · rw [if_neg hc, Nat.mod_eq_of_lt (by omega)]
    constructor
    · show (actuatorStep K (actuatorRun K M)).2 = (M + 1) % K
      unfold actuatorStep
      dsimp only
      rw [ih1, hmod]
    · intro j
      show (actuatorStep K (actuatorRun K M)).1 j = _
      unfold actuatorStep
      dsimp only
      rw [ih1, hmod]
      exact double_toggle (actuatorRun K M).1 (M % K) _ ih2 j

/-- Witness for the amended C5, at K = 3, M = 1: index 1, output 1 High. -/
theorem actuator_rotation_amended_witness :
    (actuatorRun 3 1).2 = 1 % 3 ∧
    (actuatorRun 3 1).1 1 = if 1 = 1 % 3 then Level.High else Level.Low :=
  ⟨(actuator_rotation_amended 3 1 (by decide)).1,
   (actuator_rotation_amended 3 1 (by decide)).2 1⟩

/-- Claim C6: for an input whose next edge after `t` is at `e` and which then
holds its new level for at least the debounce duration, `debounce` returns
within a single loop iteration (fuel 1), at time `e + d`, and the returned
level is exactly the new post-edge level, which differs from the level
at `t`. -/
theorem debounce_liveness (s : Signal) (d t e : Nat)
    (hedge : nextEdge s t = some e)
    (hstab : ∀ u, u ≤ d → s.get_level (e + u) = s.get_level e) :
    debounce s d 1 t = some (e + d, s.get_level e) ∧ s.get_level e ≠ s.get_level t :=
  debounce_one_iter s d t e hedge hstab 0

/-- Witness for C6: one press edge, stable afterwards, resolved with fuel 1. -/
theorem debounce_liveness_witness :
    debounce ⟨[Level.Low, Level.High, Level.High, Level.High], Level.High⟩ 2 1 0
      = some (1 + 2, Signal.get_level ⟨[Level.Low, Level.High, Level.High, Level.High],
          Level.High⟩ 1) ∧
    Signal.get_level ⟨[Level.Low, Level.High, Level.High, Level.High], Level.High⟩ 1
      ≠ Signal.get_level ⟨[Level.Low, Level.High, Level.High, Level.High], Level.High⟩ 0 :=
  debounce_liveness ⟨[Level.Low, Level.High, Level.High, Level.High], Level.High⟩ 2 0 1
    (by decide) (by decide)

/-- Counterexample to claim C7: a run of `debounce` that returns level High
at time 4 with debounce duration 3, although High was not held continuously
for the last 3 ticks (the signal was Low at time 2): the code checks only the
two samples around the settle window, not stability throughout it. -/
theorem debounce_hold_counterexample :
    debounce ⟨[Level.Low, Level.High, Level.Low, Level.High], Level.High⟩ 3 1 0
      = some (4, Level.High) ∧
    heldFor ⟨[Level.Low, Level.High, Level.Low, Level.High], Level.High⟩ Level.High 4 3
      = false := by
  decide

/-- Claim C7 (amended): whenever `debounce` returns a level, that level is
the sample taken exactly the debounce duration after some edge, and it
differs from the level sampled at the start of that iteration; the returned
level is not necessarily held continuously for the debounce duration. -/
theorem debounce_return_characterization (s : Signal) (d fuel t tr : Nat) (L : Level)
    (h : debounce s d fuel t = some (tr, L)) :
    s.get_level tr = L ∧
    ∃ t1 e, nextEdge s t1 = some e ∧ t1 < e ∧ tr = e + d ∧ s.get_level t1 ≠ L := by
  obtain ⟨h1, hex⟩ := debounce_sound s d fuel t tr L h
  exact ⟨h1.symm, hex⟩

/-- Witness for the amended C7, on the very signal of the counterexample. -/
theorem debounce_return_characterization_witness :
    Signal.get_level ⟨[Level.Low, Level.High, Level.Low, Level.High], Level.High⟩ 4
      = Level.High ∧
    ∃ t1 e, nextEdge ⟨[Level.Low, Level.High, Level.Low, Level.High], Level.High⟩ t1
        = some e ∧ t1 < e ∧ 4 = e + 3 ∧
      Signal.get_level ⟨[Level.Low, Level.High, Level.Low, Level.High], Level.High⟩ t1
        ≠ Level.High :=
  debounce_return_characterization
    ⟨[Level.Low, Level.High, Level.Low, Level.High], Level.High⟩ 3 1 0 4 Level.High (by decide)

/-- Claim C8: on spawn failure the handler sets the fault-indicator pin high
and the program keeps running (the second spawn is still attempted and the
section yields final pin levels); on spawn success the handler performs no
action, leaving the pin at its previous level. -/
theorem spawn_failure_reported :
    (∀ p, handleSpawn SpawnResult.err p = Level.High) ∧
    (∀ p, handleSpawn SpawnResult.ok p = p) ∧
    (∀ r2, mainSpawnSection SpawnResult.err r2 = (Level.High, handleSpawn r2 Level.High)) := by
  exact ⟨fun p => rfl, fun p => rfl, fun r2 => rfl⟩

/-- Claim C9: both fault-indicator pins are constructed at Level High and the
failure handler also sets High, so whatever the two spawn results are, both
pins read High: success is indistinguishable from failure on these pins. -/
theorem error_pins_always_high :
    ∀ r1 r2, mainSpawnSection r1 r2 = (Level.High, Level.High) := by
  intro r1 r2
  cases r1 <;> cases r2 <;> rfl

/-- Claim C10: `poll_btn_with_state` discards the level returned by
`debounce`; whenever the first debounce of an iteration returns, whatever
level it confirmed, a Toggle is emitted as the first event of the
iteration. -/
theorem toggle_sent_regardless_of_direction (s : Signal) (d period dfuel iters t t1 : Nat)
    (L : Level) (h : debounce s d dfuel t = some (t1, L)) :
    ∃ rest, pollEvents s d period dfuel (iters + 1) t = LedState.Toggle :: rest := by
  refine ⟨match debounce s d dfuel t1 with
    | none => []
    | some (t2, _) => pollEvents s d period dfuel iters (tickNext period t2), ?_⟩
  rw [pollEvents_unfold, h]

/-- Witness for C10: a signal whose first confirmed transition is a release,
High to Low; a Toggle is still emitted. -/
theorem toggle_sent_regardless_of_direction_witness :
    ∃ rest, pollEvents ⟨[Level.High], Level.Low⟩ 2 1 1 1 0 = LedState.Toggle :: rest :=
  toggle_sent_regardless_of_direction ⟨[Level.High], Level.Low⟩ 2 1 1 0 0 3 Level.Low
    (by decide)
